import Mathlib

/-!
Verification of the utee N-way stream duplication engine (src/utee.c)
against its natural-language specification.

The development shallowly embeds the pieces of utee.c that the claims
are about:

* topology construction (utee.c:229-266): which destinations become
  splice (drain) targets, which become tee (duplication) targets, and
  which intermediate relay pipes are created;
* spliceall/drain (utee.c:57-69, 165-173): the blocking drain stage,
  including the C comparison of a bool against -1;
* muxpipe (utee.c:135-162): the non-blocking duplication loop with
  EAGAIN retry and minimum negotiation, driven by an oracle of tee(2)
  results;
* the cache window bookkeeping and sync_file_range/fadvise call
  sequence (utee.c:100-132, 307-332), as a fold over per-iteration
  chunk sizes;
* the engine loop (utee.c:268-335) over ideal in-kernel buffers
  (pipes as unbounded byte queues, every splice/tee succeeding), which
  is the setting in which the spec's functional-correctness sentences
  quantify over "successful runs";
* relay creation with injected pipe(2) failures and the goto-error
  cleanup loop (utee.c:180-191, 251-256, 336-345);
* main's option handling and the append-mode precondition check
  (utee.c:354-410).

Bytes are modelled as Nat; machine counters (size_t, ssize_t) as Nat or
Int with the C limits INT_MAX and SSIZE_MAX spelled out where the code
depends on them.
-/

namespace Utee

/-- WINDOW (utee.c:30): an 8 MiB cache window. -/
def WINDOW : Nat := 8 * 1024 * 1024

/-- INT_MAX: the per-call ceiling passed to splice/tee (utee.c:140, 277). -/
def INT_MAX : Nat := 2 ^ 31 - 1

/-- SSIZE_MAX: the sentinel that muxpipe starts its running minimum at
(utee.c:136). -/
def SSIZE_MAX : Nat := 2 ^ 63 - 1

/-! ## Topology builder (utee.c:229-266)

Destinations are given as a list of Booleans, `true` meaning the
descriptor is a FIFO (relay-capable pipe), `false` a terminal sink,
in destination order (index 0 is the primary output). -/

/-- Indices of the non-pipe destinations, in order: the contents of the
`spliceto` array built by the first classification loop
(utee.c:237-242). -/
def splicetoIdx : List Bool → List Nat
  | [] => []
  | d :: ds =>
    if d then (splicetoIdx ds).map (· + 1)
    else 0 :: (splicetoIdx ds).map (· + 1)

/-- Indices of the pipe destinations, in order: the destinations added
directly to `teeto` by the second loop (utee.c:261-266). -/
def fifoIdx : List Bool → List Nat
  | [] => []
  | d :: ds =>
    if d then 0 :: (fifoIdx ds).map (· + 1)
    else (fifoIdx ds).map (· + 1)

/-- nsplice (utee.c:234, 240): number of terminal destinations. -/
def nsplice (dests : List Bool) : Nat := (splicetoIdx dests).length

/-- Number of relay pipes the engine creates: the loop at utee.c:251
runs for i = 1 .. nsplice-1, so nsplice - 1 relays (0 when nsplice = 0,
matching the empty size_t loop). -/
def nrelays (dests : List Bool) : Nat := nsplice dests - 1

/-- ntee (utee.c:233): relay write ends plus pipe destinations. -/
def ntee (dests : List Bool) : Nat := nrelays dests + (fifoIdx dests).length

/-- Modelled from the spec: the first terminal destination of the
ordered destination list (the spec claims drain-target index 0 is
destination[0]; this function is the spec-side notion used to compare
with what the code computes). -/
def firstTerminal : List Bool → Option Nat
  | [] => none
  | d :: ds => if d then (firstTerminal ds).map (· + 1) else some 0

/-- A drain source: either the origin conduit (splicefrom[0],
utee.c:245) or the read end of relay j (splicefrom[j+1], utee.c:255). -/
inductive DrainSrc where
  | origin : DrainSrc
  | relay : Nat → DrainSrc
deriving DecidableEq

/-- The splicefrom array as built by utee.c:245, 251-256. -/
def drainSources (dests : List Bool) : List DrainSrc :=
  .origin :: (List.range (nrelays dests)).map .relay

/-- Drain pairs: splicefrom[i] feeding spliceto[i] (utee.c:165-173,
298). -/
def drainPairs (dests : List Bool) : List (DrainSrc × Nat) :=
  (drainSources dests).zip (splicetoIdx dests)

/-- The destination indices that receive the swapwindow/discard calls:
spliceto[0] unconditionally, spliceto[1..nsplice-1] only under the
force-no-thrash flag (utee.c:308-314, 326-331). When nsplice = 0 the C
code would read the uninitialized spliceto[0]; the model issues no call
in that case. -/
def wbTargets (dests : List Bool) (force : Bool) : List Nat :=
  match splicetoIdx dests with
  | [] => []
  | t :: ts => t :: (if force then ts else [])

/-! ## Cache window manager (utee.c:100-132, 307-332)

The sequence of sync_file_range/posix_fadvise calls issued against one
writeback target, as a function of the per-iteration chunk sizes. -/

/-- A writeback event: `wout off len` is the asynchronous
sync_file_range(SYNC_FILE_RANGE_WRITE) of utee.c:100-104; `disc off
len` is the synchronous write-and-evict (WAIT_BEFORE|WRITE|WAIT_AFTER
plus POSIX_FADV_DONTNEED) of utee.c:113-122. -/
inductive WEv where
  | wout : Nat → Nat → WEv
  | disc : Nat → Nat → WEv
deriving DecidableEq

/-- swapwindow (utee.c:127-132): queue window idx for writeout and, if
idx > 0, force out and discard window idx - 1. -/
def swapwindow (idx window : Nat) : List WEv :=
  WEv.wout (window * idx) window ::
    (if idx ≠ 0 then [WEv.disc (window * (idx - 1)) window] else [])

/-- Window state carried by the engine loop: wfilled, widx
(utee.c:269-270) plus the trail of calls issued so far. -/
structure WinSt where
  wfilled : Nat
  widx : Nat
  trace : List WEv
deriving DecidableEq

/-- One engine-loop iteration's effect on the window state
(utee.c:307-321): if a window has filled, swap it and advance; then
account the chunk that was just drained. -/
def winStep (s : WinSt) (teed : Nat) : WinSt :=
  let s1 := if WINDOW ≤ s.wfilled then
      { wfilled := 0, widx := s.widx + 1,
        trace := s.trace ++ swapwindow s.widx WINDOW }
    else s
  { s1 with wfilled := s1.wfilled + teed }

/-- Window state at loop entry (utee.c:269-270). -/
def winInit : WinSt := ⟨0, 0, []⟩

/-- Window state after the whole transfer, given the drained chunk
sizes of the successive iterations. -/
def winRun (chunks : List Nat) : WinSt := chunks.foldl winStep winInit

/-- The final end-of-stream discard (utee.c:324-332): if any window
boundary was crossed, discard the last completed window plus the
trailing partial window. -/
def winFinal (s : WinSt) : List WEv :=
  s.trace ++
    (if s.widx ≠ 0 then [WEv.disc (WINDOW * (s.widx - 1)) (WINDOW + s.wfilled)] else [])

/-- All writeback/eviction calls a run with the given chunk sizes
issues against one writeback target. -/
def winTrace (chunks : List Nat) : List WEv := winFinal (winRun chunks)

/-- The canonical mid-stream call sequence after j window crossings. -/
def midTrace : Nat → List WEv
  | 0 => []
  | j + 1 => midTrace j ++ swapwindow j WINDOW

/-- Does this event evict (synchronously write back and discard) a
range starting at window k? -/
def discAt (k : Nat) : WEv → Bool
  | .disc off _ => off == WINDOW * k
  | _ => false

/-- Does this event asynchronously write out a range starting at
window k? -/
def woutAt (k : Nat) : WEv → Bool
  | .wout off _ => off == WINDOW * k
  | _ => false

/-! ## Drain stage (utee.c:57-69, 165-173)

The splice(2) results are supplied as an oracle list (one entry per
call); `none` means the oracle ran out (the C loop would keep calling
splice). -/

/-- spliceall (utee.c:57-69): loop splicing until len bytes have moved;
a zero or negative splice result returns false. C `len -= written`
is Nat subtraction here; splice(2) never returns more than requested,
and for a misbehaving oracle the truncation at 0 matches the size_t
wrap being avoided only by that kernel guarantee. -/
def spliceall : List Int → Nat → Option Bool
  | _, 0 => some true
  | [], _ + 1 => none
  | w :: rest, n + 1 =>
    if w ≤ 0 then some false
    else spliceall rest (n + 1 - w.toNat)

/-- C integer promotion of a bool (the value `spliceall(...)` has when
compared against -1 at utee.c:167). -/
def cBool (b : Bool) : Int := if b then 1 else 0

/-- drain (utee.c:165-173): transcribed verbatim, including the
comparison `spliceall(in[i], out[i], len) == -1` of a bool against -1.
One splice-result oracle per (drain source, drain target) pair. -/
def drain : List (List Int) → Nat → Option Int
  | [], len => some (len : Int)
  | o :: rest, len =>
    match spliceall o len with
    | none => none
    | some b => if cBool b = -1 then some (-1) else drain rest len

/-- True when a drain result is the error value -1. -/
def reportsError : Option Int → Bool
  | some w => w == -1
  | none => false

/-! ## Multiplexer (utee.c:135-162)

tee(2) results are supplied per duplication target as a list of raw
outcomes; `again` is -1 with errno EAGAIN, `err` is any other -1,
`ret n` is a return value of n ≥ 0. -/

/-- One raw tee(2) outcome. -/
inductive TeeRes where
  | again : TeeRes
  | err : TeeRes
  | ret : Nat → TeeRes
deriving DecidableEq

/-- The first non-EAGAIN outcome for one target: the usleep/continue
branch at utee.c:146-149 retries the same target, so only the first
result that is not EAGAIN matters; `none` models a target that is
retried beyond the supplied oracle (the C loop would spin). -/
def firstResult : List TeeRes → Option TeeRes
  | [] => none
  | .again :: rest => firstResult rest
  | r :: _ => some r

/-- muxpipe's walk over the targets with its running minimum
(utee.c:135-162). `m` is the C `min` variable, started at SSIZE_MAX. -/
def muxpipeGo : List (List TeeRes) → Nat → Option Int
  | [], m => some (if m = SSIZE_MAX then 0 else (m : Int))
  | t :: rest, m =>
    match firstResult t with
    | none => none
    | some .again => none
    | some .err => some (-1)
    | some (.ret 0) => some 0
    | some (.ret (n + 1)) => muxpipeGo rest (if n + 1 < m then n + 1 else m)

/-- muxpipe (utee.c:135-162) over per-target tee-result oracles. -/
def muxpipeModel (targets : List (List TeeRes)) : Option Int :=
  muxpipeGo targets SSIZE_MAX

/-- Running minimum with the same branch shape as utee.c:154-156. -/
def foldlMin (l : List Nat) (m : Nat) : Nat :=
  l.foldl (fun m a => if a < m then a else m) m

/-! ## Relay creation and the goto-error cleanup (utee.c:180-191,
229-256, 336-345)

The malloc'd teeto/splicefrom arrays start out indeterminate; slots are
Option Nat with `none` for a slot that was never written. pipe(2)
results come from an oracle: call k either yields a fresh (read end,
write end) pair or fails (xpipe then returns a zeroed pipe_t,
utee.c:180-191). -/

structure BuildSt where
  teeto : List (Option Nat)
  splicefrom : List (Option Nat)
  created : List Nat
  failed : Bool
deriving DecidableEq

/-- Write slot i of a malloc'd array. -/
def setSlot (l : List (Option Nat)) (i : Nat) (v : Nat) : List (Option Nat) :=
  l.set i (some v)

/-- The relay-creation loop (utee.c:251-256), call counter k (equal to
the current ntee, since no pipe destinations have been added yet) and
`rem` iterations left. On xpipe failure (`p.fd.in == 0`) it jumps to
the error label with the arrays as they are. -/
def buildRelays (oracle : Nat → Option (Nat × Nat)) :
    Nat → Nat → BuildSt → BuildSt
  | _, 0, st => st
  | k, rem + 1, st =>
    match oracle k with
    | none => { st with failed := true }
    | some (r, w) =>
      buildRelays oracle (k + 1) rem
        { st with
          teeto := setSlot st.teeto k w,
          splicefrom := setSlot st.splicefrom (k + 1) r,
          created := st.created ++ [r, w] }

/-- Topology construction up to the relay loop: arrays malloc'd with
nout + 1 indeterminate slots (utee.c:229-231), splicefrom[0] set to the
origin (utee.c:245), then nsplice - 1 relay creations. -/
def buildTopology (dests : List Bool) (originFd : Nat)
    (oracle : Nat → Option (Nat × Nat)) : BuildSt :=
  let n := dests.length
  buildRelays oracle 0 (nsplice dests - 1)
    { teeto := List.replicate (n + 1) none,
      splicefrom := setSlot (List.replicate (n + 1) none) 0 originFd,
      created := [],
      failed := false }

/-- The error-label cleanup loop (utee.c:342-345): for i = 1 ..
nsplice - 1 it closes teeto[i-1] and splicefrom[i], whatever those
slots hold. A `none` in the result is a close() of an indeterminate
malloc'd value. -/
def cleanupCloses (nsp : Nat) (st : BuildSt) : List (Option Nat) :=
  (List.range (nsp - 1)).flatMap
    (fun j => [st.teeto.getD j none, st.splicefrom.getD (j + 1) none])

/-! ## Engine loop (utee.c:268-335) over ideal kernel buffers

Pipes are unbounded byte queues and every splice/tee succeeds, the
setting in which the spec quantifies over successful runs. `copyin`
(utee.c:209) says the input is not itself a pipe, so the loop first
splices it into the owned origin pipe. Everything the TRACE macro
(utee.c:38-41) prints is collected in `log`; nothing else reads the
verbosity flag. -/

structure EngSt where
  input : List Nat
  origin : List Nat
  relays : List (List Nat)
  outs : List (List Nat)
  written : Nat
  wfilled : Nat
  widx : Nat
  iters : List (Nat × Nat)
  log : List String
deriving DecidableEq

/-- TRACE (utee.c:38-41): append a diagnostic line only when verbose. -/
def TRACE (verbose : Bool) (msg : String) (log : List String) : List String :=
  if verbose then log ++ [msg] else log

/-- The input-adapter step (utee.c:276-287): splice up to INT_MAX bytes
from the non-pipe input into the origin pipe. Only called when the
input is nonempty (a zero result breaks the loop before this). -/
def pushInput (v : Bool) (s : EngSt) : EngSt :=
  let rcvd := min s.input.length INT_MAX
  { s with
    input := s.input.drop rcvd,
    origin := s.origin ++ s.input.take rcvd,
    log := TRACE v "push" s.log }

/-- muxpipe's return value under ideal conditions (utee.c:135-162,
289): with no duplication targets the running minimum stays SSIZE_MAX
and 0 is returned; with an empty origin tee(2) reports end-of-stream;
otherwise every target receives min(|origin|, INT_MAX) bytes and that
is the negotiated minimum. -/
def muxAmount (origin : List Nat) (nt : Nat) : Nat :=
  if nt = 0 then 0 else min origin.length INT_MAX

/-- One loop iteration past a positive muxpipe result (utee.c:289-321):
tee the chunk into every relay and every pipe destination, drain
`teed` bytes from origin/relays into the terminal destinations, do the
window bookkeeping, account the totals. `iters` records, per
iteration, the muxpipe return value and the byte count handed to (and,
per utee.c:172, returned by) drain. -/
def iterStep (v : Bool) (dests : List Bool) (teed : Nat) (s : EngSt) : EngSt :=
  let chunk := s.origin.take teed
  let relays1 := s.relays.map (· ++ chunk)
  let outs1 := List.zipWith (fun d o => if d then o ++ chunk else o) dests s.outs
  let pairs := (splicetoIdx dests).zip (s.origin :: relays1)
  let outs2 := pairs.foldl (fun os p => os.set p.1 (os.getD p.1 [] ++ p.2.take teed)) outs1
  { input := s.input,
    origin := if nsplice dests = 0 then s.origin else s.origin.drop teed,
    relays := relays1.map (List.drop teed),
    outs := outs2,
    written := s.written + teed,
    wfilled := (if WINDOW ≤ s.wfilled then 0 else s.wfilled) + teed,
    widx := s.widx + (if WINDOW ≤ s.wfilled then 1 else 0),
    iters := s.iters ++ [(teed, teed)],
    log := TRACE v "drain" (TRACE v "mux" s.log) }

/-- The adapted state an iteration works on: with a non-pipe input the
input-adapter splice has run first (utee.c:276-287), otherwise the
state is untouched. -/
def adapt (v b : Bool) (s : EngSt) : EngSt := if b then pushInput v s else s

/-- The engine loop (utee.c:273-322). Fuel-indexed; `none` means the
fuel ran out, a terminating run returns the C return value (the
running total, utee.c:351) and the final state. The loop breaks when
the non-pipe input is exhausted (rcvd = 0, utee.c:283-285) or when
muxpipe reports 0 (utee.c:293-295). The force-no-thrash flag `c`
selects extra sync_file_range targets only (see wbTargets) and touches
no engine state. -/
def uteeLoop (v b c : Bool) (dests : List Bool) : Nat → EngSt → Option (Int × EngSt)
  | 0, _ => none
  | fuel + 1, s =>
    if b ∧ s.input.length = 0 then some ((s.written : Int), s)
    else if muxAmount (adapt v b s).origin (ntee dests) = 0 then
      some (((adapt v b s).written : Int), adapt v b s)
    else
      uteeLoop v b c dests fuel
        (iterStep v dests (muxAmount (adapt v b s).origin (ntee dests)) (adapt v b s))

/-- Engine state at loop entry (utee.c:203-270): with a non-pipe input
the origin pipe starts empty and is refilled from the input; with a
pipe input the input's buffered bytes are the origin's content. -/
def initSt (b : Bool) (dests : List Bool) (input : List Nat) : EngSt :=
  { input := if b then input else [],
    origin := if b then [] else input,
    relays := List.replicate (nrelays dests) [],
    outs := List.replicate dests.length [],
    written := 0, wfilled := 0, widx := 0, iters := [], log := [] }

/-- A whole utee invocation (utee.c:203-352) under ideal kernel
behaviour. -/
def uteeRun (v b c : Bool) (dests : List Bool) (input : List Nat)
    (fuel : Nat) : Option (Int × EngSt) :=
  uteeLoop v b c dests fuel (initSt b dests input)

/-- Forget the diagnostic output. -/
def EngSt.stripLog (s : EngSt) : EngSt := { s with log := [] }

/-- The iteration records of a run (empty if the run did not finish). -/
def itersOf (r : Option (Int × EngSt)) : List (Nat × Nat) :=
  (r.map (fun p => p.2.iters)).getD []

/-! ## main (utee.c:354-430) -/

/-- getopt walk of parseopts (utee.c:357-363) over the option
characters, accumulating -v and -c. -/
def parseGo : Bool → Bool → List Char → Option (Bool × Bool)
  | v, c, [] => some (v, c)
  | _, c, 'v' :: rest => parseGo true c rest
  | v, _, 'c' :: rest => parseGo v true rest
  | _, _, _ :: _ => none

/-- parseopts (utee.c:354-370): option flags, then the requirement that
at least one positional argument remains (utee.c:365-367). Returns the
(verbose, force-no-thrash) configuration or failure. -/
def parseopts (opts : List Char) (npos : Nat) : Option (Bool × Bool) :=
  match parseGo false false opts with
  | none => none
  | some flags => if npos = 0 then none else some flags

/-- The diagnostic printed on the append-mode precondition failure
(utee.c:380, contraction spelled out). -/
def precondMsg : String := "cannot output to an append-mode file, use regular tee"

/-- Observable outcome of a main invocation: process exit code, whether
the engine (utee) was entered, the destination contents it produced
(none if it never ran), and the stderr diagnostics. -/
structure MainOut where
  exitCode : Nat
  engineRan : Bool
  outs : Option (List (List Nat))
  log : List String
deriving DecidableEq

/-- main (utee.c:372-430): parse options, check the append-mode
precondition before anything is opened or written (utee.c:379-382),
open the positional arguments as regular files (utee.c:389-396), run
the engine, map its result to the exit code (utee.c:429). -/
def mainModel (opts : List Char) (npos : Nat)
    (stdoutAppend stdoutFifo inputPipe : Bool)
    (input : List Nat) (fuel : Nat) : MainOut :=
  match parseopts opts npos with
  | none => ⟨1, false, none, []⟩
  | some (v, c) =>
    if stdoutAppend then
      ⟨1, false, none, TRACE v "welcome" [] ++ [precondMsg]⟩
    else
      let dests := stdoutFifo :: List.replicate npos false
      match uteeRun v (!inputPipe) c dests input fuel with
      | none => ⟨1, true, none, []⟩
      | some (w, s) => ⟨if w = -1 then 1 else 0, true, some s.outs, s.log⟩

/-- Forget a main invocation's diagnostics. -/
def stripMain (m : MainOut) : MainOut := { m with log := [] }

/-! ## Theorems -/

lemma cBool_ne_neg_one (b : Bool) : cBool b ≠ -1 := by
  cases b <;> simp [cBool]

lemma drain_no_error (oracles : List (List Int)) (len : Nat) :
    reportsError (drain oracles len) = false := by
  induction oracles with
  | nil =>
    simp only [drain, reportsError, beq_eq_false_iff_ne, ne_eq]
    omega
  | cons o rest ih =>
    simp only [drain]
    cases spliceall o len with
    | none => simp [reportsError]
    | some b =>
      simp only []
      rw [if_neg (cBool_ne_neg_one b)]
      exact ih

/-- C1: the claim that after any run the engine reports successful
(non-negative total) every destination holds exactly the source's first
L bytes fails on the code: with a single terminal destination there are
no duplication targets (ntee = 0), muxpipe returns 0 immediately
(utee.c:161), the loop breaks as if at end-of-stream (utee.c:293-295),
and utee returns success with total 0 while the destination received
nothing — for either kind of source.  The L = 0, N = 1 instance of the
claim does hold (third conjunct). -/
theorem utee_success_without_delivery :
    (uteeRun false true false [false] [42] 2).map (fun p => (p.1, p.2.outs)) =
      some (0, [[]]) ∧
    (uteeRun false false false [false] [42] 2).map (fun p => (p.1, p.2.outs)) =
      some (0, [[]]) ∧
    (uteeRun false true false [false] [] 2).map (fun p => (p.1, p.2.outs)) =
      some (0, [[]]) ∧
    ([[]] : List (List Nat)) ≠ [[42]] := by
  refine ⟨by decide, by decide, by decide, by decide⟩

/-- C2: the claim that a zero or negative splice result makes drain
report an error is false of the code: spliceall (utee.c:57) returns
bool, and the check `spliceall(...) == -1` at utee.c:167 compares that
bool (promoted to 0 or 1) against -1, so it can never fire.  drain
returns len even when a transfer failed (first two conjuncts evaluate
the failing input), and in fact never returns -1 at all (third
conjunct). -/
theorem drain_ignores_failed_spliceall :
    spliceall [0] 1 = some false ∧
    drain [[0]] 1 = some 1 ∧
    ∀ (oracles : List (List Int)) (len : Nat),
      reportsError (drain oracles len) = false :=
  ⟨by decide, by decide, drain_no_error⟩

/-- C4 counterexample: with destinations [pipe, file] the code's
drain-target index 0 (the head of the spliceto array, utee.c:237-242)
is destination 1, not destination 0 as the claim states. -/
theorem drain_target_zero_not_destination_zero :
    splicetoIdx [true, false] = [1] ∧
    drainPairs [true, false] = [(DrainSrc.origin, 1)] ∧
    ¬ (splicetoIdx [true, false]).head? = some 0 := by
  refine ⟨by decide, by decide, by decide⟩

/-- C5: the claim that no descriptor the engine did not create is ever
closed fails on the code: with three terminal destinations
(nsplice = 3) and the second pipe(2) call failing, the goto-error
cleanup loop (utee.c:342-345) still iterates over all nsplice - 1 relay
slots and closes teeto[1] and splicefrom[2], which were never written
(indeterminate malloc contents, `none` in the model).  The relays that
were created (fds 10, 11) are each closed exactly once, as the
spec intends, but two close() calls hit indeterminate values. -/
theorem cleanup_closes_indeterminate_slots :
    (buildTopology [false, false, false] 3
      (fun k => if k = 0 then some (10, 11) else none)).failed = true ∧
    (buildTopology [false, false, false] 3
      (fun k => if k = 0 then some (10, 11) else none)).created = [10, 11] ∧
    cleanupCloses (nsplice [false, false, false])
      (buildTopology [false, false, false] 3
        (fun k => if k = 0 then some (10, 11) else none)) =
      [some 11, some 10, none, none] ∧
    none ∈ cleanupCloses (nsplice [false, false, false])
      (buildTopology [false, false, false] 3
        (fun k => if k = 0 then some (10, 11) else none)) := by
  refine ⟨by decide, by decide, by decide, by decide⟩

/-- C6 counterexample: on a run whose chunks are [WINDOW, 1] exactly one
window boundary is crossed; window 0 is evicted by the final
end-of-stream discard (utee.c:325-332), but no asynchronous writeback
for window 1 was ever scheduled, refuting "always strictly after the
asynchronous writeback for window k+1 has been scheduled" for the last
crossed window. -/
theorem last_window_evicted_without_next_writeout :
    winTrace [WINDOW, 1] = [WEv.wout 0 WINDOW, WEv.disc 0 (WINDOW + 1)] ∧
    (winTrace [WINDOW, 1]).countP (discAt 0) = 1 ∧
    (winTrace [WINDOW, 1]).countP (woutAt 1) = 0 := by
  refine ⟨by decide, by decide, by decide⟩

/-- C7 counterexample: with destinations [pipe, file] the unconditional
writeback/eviction target (spliceto[0], utee.c:308, 326) is destination
index 1 — the first terminal destination — and destination index 0
receives no writeback call, refuting "applied to destination index 0
unconditionally". -/
theorem writeback_target_not_destination_zero :
    wbTargets [true, false] false = [1] ∧
    wbTargets [true, false] true = [1] ∧
    ¬ (0 ∈ wbTargets [true, false] false) := by
  refine ⟨by decide, by decide, by decide⟩

/-- C9: with no duplication targets (ntee = 0 — a single terminal
destination) the muxpipe walk never updates its SSIZE_MAX sentinel and
returns 0 (utee.c:161), the engine loop takes that as end-of-stream
(utee.c:293-295) and reports success with total 0, whatever data is
still undelivered in the origin conduit. -/
theorem mux_without_targets_ends_loop :
    (∀ origin : List Nat, muxAmount origin 0 = 0) ∧
    muxpipeModel [] = some 0 ∧
    ntee [false] = 0 ∧
    ∀ (input : List Nat) (v b c : Bool) (fuel : Nat),
      ∃ s : EngSt, uteeRun v b c [false] input (fuel + 1) = some (0, s) ∧
        s.outs = [[]] ∧ s.written = 0 := by
  refine ⟨fun origin => rfl, by decide, by decide, ?_⟩
  intro input v b c fuel
  cases b with
  | false =>
    refine ⟨initSt false [false] input, ?_, rfl, rfl⟩
    simp [uteeRun, uteeLoop, initSt, adapt, muxAmount, ntee, nrelays, nsplice,
      splicetoIdx, fifoIdx]
  | true =>
    cases input with
    | nil =>
      refine ⟨initSt true [false] [], ?_, rfl, rfl⟩
      simp [uteeRun, uteeLoop, initSt]
    | cons x xs =>
      refine ⟨pushInput v (initSt true [false] (x :: xs)), ?_, rfl, rfl⟩
      simp [uteeRun, uteeLoop, initSt, adapt, muxAmount, ntee, nrelays, nsplice,
        splicetoIdx, fifoIdx, pushInput]

lemma foldlMin_le (l : List Nat) : ∀ m : Nat, foldlMin l m ≤ m := by
  induction l with
  | nil => intro m; exact le_refl m
  | cons a l ih =>
    intro m
    simp only [foldlMin, List.foldl_cons]
    refine le_trans (ih _) ?_
    split <;> omega

lemma foldlMin_le_mem (l : List Nat) : ∀ m : Nat, ∀ a ∈ l, foldlMin l m ≤ a := by
  induction l with
  | nil => intro m a ha; cases ha
  | cons b l ih =>
    intro m a ha
    rcases List.mem_cons.mp ha with rfl | ha
    · simp only [foldlMin, List.foldl_cons]
      refine le_trans (foldlMin_le l _) ?_
      split <;> omega
    · simp only [foldlMin, List.foldl_cons]
      exact ih _ a ha

lemma foldlMin_mem_or (l : List Nat) : ∀ m : Nat,
    foldlMin l m = m ∨ foldlMin l m ∈ l := by
  induction l with
  | nil => intro m; left; rfl
  | cons a l ih =>
    intro m
    simp only [foldlMin, List.foldl_cons]
    by_cases hm : a < m
    · rw [if_pos hm]
      show foldlMin l a = m ∨ foldlMin l a ∈ a :: l
      rcases ih a with h | h
      · right; rw [h]; exact List.mem_cons_self a l
      · right; exact List.mem_cons_of_mem a h
    · rw [if_neg hm]
      show foldlMin l m = m ∨ foldlMin l m ∈ a :: l
      rcases ih m with h | h
      · left; exact h
      · right; exact List.mem_cons_of_mem a h

lemma muxpipeGo_min (ts : List (List TeeRes)) : ∀ (m : Nat) (v : Int),
    muxpipeGo ts m = some v → 0 < v →
    ∃ amounts : List Nat,
      amounts.length = ts.length ∧
      (∀ (i : Nat) (h : i < ts.length) (h2 : i < amounts.length),
        firstResult ts[i] = some (.ret amounts[i])) ∧
      v = (foldlMin amounts m : Nat) ∧ foldlMin amounts m ≠ SSIZE_MAX := by
  induction ts with
  | nil =>
    intro m v hv hpos
    simp only [muxpipeGo, Option.some.injEq] at hv
    by_cases hm : m = SSIZE_MAX
    · rw [if_pos hm] at hv; omega
    · rw [if_neg hm] at hv
      exact ⟨[], rfl, by intro i h h2; simp at h, by rw [← hv]; rfl,
        by simpa [foldlMin] using hm⟩
  | cons t rest ih =>
    intro m v hv hpos
    simp only [muxpipeGo] at hv
    cases hfr : firstResult t with
    | none => rw [hfr] at hv; cases hv
    | some r =>
      rw [hfr] at hv
      cases r with
      | again => cases hv
      | err => simp only [Option.some.injEq] at hv; omega
      | ret n =>
        cases n with
        | zero => simp only [Option.some.injEq] at hv; omega
        | succ n =>
          obtain ⟨amounts, hlen, hall, hfold, hne⟩ := ih _ v hv hpos
          refine ⟨(n + 1) :: amounts, by simp [hlen], ?_, ?_, ?_⟩
          · intro i h h2
            cases i with
            | zero => simpa using hfr
            | succ i =>
              simp only [List.getElem_cons_succ]
              exact hall i (by simpa using h) (by simpa using h2)
          · rw [hfold]; rfl
          · simpa [foldlMin] using hne

lemma adapt_iters (v b : Bool) (s : EngSt) : (adapt v b s).iters = s.iters := by
  cases b <;> rfl

lemma iterStep_iters (v : Bool) (dests : List Bool) (teed : Nat) (s : EngSt) :
    (iterStep v dests teed s).iters = s.iters ++ [(teed, teed)] := rfl

lemma uteeLoop_iters (v b c : Bool) (dests : List Bool) :
    ∀ (fuel : Nat) (s : EngSt), (∀ p ∈ s.iters, p.1 = p.2) →
      ∀ (w : Int) (r : EngSt), uteeLoop v b c dests fuel s = some (w, r) →
        ∀ p ∈ r.iters, p.1 = p.2 := by
  intro fuel
  induction fuel with
  | zero => intro s hs w r hr; cases hr
  | succ fuel ih =>
    intro s hs w r hr
    simp only [uteeLoop] at hr
    by_cases h1 : b ∧ s.input.length = 0
    · rw [if_pos h1] at hr
      simp only [Option.some.injEq, Prod.mk.injEq] at hr
      rw [← hr.2]; exact hs
    · rw [if_neg h1] at hr
      by_cases h2 : muxAmount (adapt v b s).origin (ntee dests) = 0
      · rw [if_pos h2] at hr
        simp only [Option.some.injEq, Prod.mk.injEq] at hr
        rw [← hr.2]
        intro p hp
        rw [adapt_iters] at hp
        exact hs p hp
      · rw [if_neg h2] at hr
        refine ih _ ?_ w r hr
        intro p hp
        rw [iterStep_iters, adapt_iters, List.mem_append, List.mem_singleton] at hp
        rcases hp with hp | hp
        · exact hs p hp
        · rw [hp]

/-- C3: the negotiated chunk size muxpipe returns for an iteration is
the minimum of the per-target duplicated amounts (first conjunct: any
positive return value equals the least of the per-target first
non-EAGAIN tee results, utee.c:135-162), and the drain stage is invoked
with exactly that value (second conjunct: every per-iteration record
of the engine loop pairs the muxpipe return with the identical byte
count handed to drain, utee.c:289-298). -/
theorem muxpipe_min_negotiation :
    (∀ (ts : List (List TeeRes)) (v : Int),
      muxpipeModel ts = some v → 0 < v →
      ∃ amounts : List Nat,
        amounts.length = ts.length ∧
        (∀ (i : Nat) (h : i < ts.length) (h2 : i < amounts.length),
          firstResult ts[i] = some (.ret amounts[i])) ∧
        (∀ a ∈ amounts, v ≤ (a : Int)) ∧ (∃ a ∈ amounts, (a : Int) = v)) ∧
    ∀ (v b c : Bool) (dests : List Bool) (input : List Nat) (fuel : Nat),
      ∀ p ∈ itersOf (uteeRun v b c dests input fuel), p.1 = p.2 := by
  constructor
  · intro ts v hv hpos
    obtain ⟨amounts, hlen, hall, hfold, hne⟩ := muxpipeGo_min ts SSIZE_MAX v hv hpos
    refine ⟨amounts, hlen, hall, ?_, ?_⟩
    · intro a ha
      rw [hfold]
      exact_mod_cast foldlMin_le_mem amounts SSIZE_MAX a ha
    · rcases foldlMin_mem_or amounts SSIZE_MAX with h | h
      · exact absurd h hne
      · exact ⟨foldlMin amounts SSIZE_MAX, h, hfold.symm⟩
  · intro v b c dests input fuel p hp
    unfold itersOf at hp
    cases hr : uteeRun v b c dests input fuel with
    | none => rw [hr] at hp; cases hp
    | some q =>
      obtain ⟨w, r⟩ := q
      rw [hr] at hp
      simp only [Option.map, Option.getD_some] at hp
      exact uteeLoop_iters v b c dests fuel (initSt b dests input)
        (by intro x hx; simp [initSt] at hx) w r hr p hp

/-- C3 witness: the hypotheses of the minimum-negotiation theorem hold
at a concrete muxpipe run (target amounts 3 and, after one EAGAIN
retry, 2; negotiated minimum 2) and at a concrete engine run. -/
theorem muxpipe_min_negotiation_witness :
    muxpipeModel [[.ret 3], [.again, .ret 2]] = some 2 ∧
    (0 : Int) < 2 ∧
    (∃ amounts : List Nat,
      amounts.length = ([[TeeRes.ret 3], [TeeRes.again, TeeRes.ret 2]] :
          List (List TeeRes)).length ∧
      (∀ (i : Nat) (h : i < ([[TeeRes.ret 3], [TeeRes.again, TeeRes.ret 2]] :
          List (List TeeRes)).length) (h2 : i < amounts.length),
        firstResult ([[TeeRes.ret 3], [TeeRes.again, TeeRes.ret 2]] :
          List (List TeeRes))[i] = some (.ret amounts[i])) ∧
      (∀ a ∈ amounts, (2 : Int) ≤ (a : Int)) ∧ (∃ a ∈ amounts, (a : Int) = 2)) ∧
    ((1, 1) ∈ itersOf (uteeRun false true false [false, false] [7] 3) →
      ((1 : Nat), (1 : Nat)).1 = ((1, 1) : Nat × Nat).2) :=
  ⟨by decide, by decide,
    muxpipe_min_negotiation.1 [[.ret 3], [.again, .ret 2]] 2 (by decide) (by decide),
    muxpipe_min_negotiation.2 false true false [false, false] [7] 3 (1, 1)⟩

lemma stripLog_inj_fields {s s' : EngSt} (h : s.stripLog = s'.stripLog) :
    s.input = s'.input ∧ s.origin = s'.origin ∧ s.relays = s'.relays ∧
    s.outs = s'.outs ∧ s.written = s'.written ∧ s.wfilled = s'.wfilled ∧
    s.widx = s'.widx ∧ s.iters = s'.iters := by
  obtain ⟨i1, o1, r1, u1, w1, f1, x1, t1, l1⟩ := s
  obtain ⟨i2, o2, r2, u2, w2, f2, x2, t2, l2⟩ := s'
  simp only [EngSt.stripLog, EngSt.mk.injEq, and_true] at h
  simpa using h

lemma adapt_strip (v v' b : Bool) (s s' : EngSt) (h : s.stripLog = s'.stripLog) :
    (adapt v b s).stripLog = (adapt v' b s').stripLog := by
  obtain ⟨i1, o1, r1, u1, w1, f1, x1, t1, l1⟩ := s
  obtain ⟨i2, o2, r2, u2, w2, f2, x2, t2, l2⟩ := s'
  simp only [EngSt.stripLog, EngSt.mk.injEq, and_true] at h
  obtain ⟨hi, ho, hr, hu, hw, hf, hx, ht⟩ := h
  subst hi; subst ho; subst hr; subst hu; subst hw; subst hf; subst hx; subst ht
  cases b <;> rfl

lemma iterStep_strip (v v' : Bool) (dests : List Bool) (teed : Nat)
    (s s' : EngSt) (h : s.stripLog = s'.stripLog) :
    (iterStep v dests teed s).stripLog = (iterStep v' dests teed s').stripLog := by
  obtain ⟨i1, o1, r1, u1, w1, f1, x1, t1, l1⟩ := s
  obtain ⟨i2, o2, r2, u2, w2, f2, x2, t2, l2⟩ := s'
  simp only [EngSt.stripLog, EngSt.mk.injEq, and_true] at h
  obtain ⟨hi, ho, hr, hu, hw, hf, hx, ht⟩ := h
  subst hi; subst ho; subst hr; subst hu; subst hw; subst hf; subst hx; subst ht
  rfl

lemma uteeLoop_log_independent (b c : Bool) (dests : List Bool) :
    ∀ (fuel : Nat) (v v' : Bool) (s s' : EngSt), s.stripLog = s'.stripLog →
      (uteeLoop v b c dests fuel s).map (fun p => (p.1, p.2.stripLog)) =
      (uteeLoop v' b c dests fuel s').map (fun p => (p.1, p.2.stripLog)) := by
  intro fuel
  induction fuel with
  | zero => intro v v' s s' h; rfl
  | succ fuel ih =>
    intro v v' s s' h
    have hadapt := adapt_strip v v' b s s' h
    have horig : (adapt v b s).origin = (adapt v' b s').origin :=
      (stripLog_inj_fields hadapt).2.1
    have hwrit : (adapt v b s).written = (adapt v' b s').written :=
      (stripLog_inj_fields hadapt).2.2.2.2.1
    have hin : s.input = s'.input := (stripLog_inj_fields h).1
    have hsw : s.written = s'.written := (stripLog_inj_fields h).2.2.2.2.1
    simp only [uteeLoop]
    rw [hin, horig, hsw]
    by_cases h1 : b ∧ s'.input.length = 0
    · rw [if_pos h1, if_pos h1]
      show some (((s'.written : Int)), s.stripLog) = some (((s'.written : Int)), s'.stripLog)
      rw [h]
    · rw [if_neg h1, if_neg h1]
      by_cases h2 : muxAmount (adapt v' b s').origin (ntee dests) = 0
      · rw [if_pos h2, if_pos h2]
        show some (((adapt v b s).written : Int), (adapt v b s).stripLog) =
          some (((adapt v' b s').written : Int), (adapt v' b s').stripLog)
        rw [hwrit, hadapt]
      · rw [if_neg h2, if_neg h2]
        exact ih v v' _ _ (iterStep_strip v v' dests _ _ _ hadapt)

/-- C10: the verbosity toggle affects diagnostic output only.  At the
engine level (first conjunct), runs differing only in the verbosity
flag agree on the return value and on every engine-state component
except the diagnostic log; at the main level (second conjunct), two
invocations whose option strings parse to the same configuration except
for the verbosity bit produce the same exit code, the same engine
participation and byte-identical destination contents.  The flag is
read only by the TRACE macro (utee.c:33, 38-41, 359). -/
theorem verbosity_only_affects_diagnostics :
    (∀ (b c : Bool) (dests : List Bool) (input : List Nat) (fuel : Nat),
      (uteeRun true b c dests input fuel).map (fun p => (p.1, p.2.stripLog)) =
      (uteeRun false b c dests input fuel).map (fun p => (p.1, p.2.stripLog))) ∧
    ∀ (opts1 opts2 : List Char) (npos : Nat) (c app fifo inpipe : Bool)
      (input : List Nat) (fuel : Nat),
      parseopts opts1 npos = some (true, c) →
      parseopts opts2 npos = some (false, c) →
      stripMain (mainModel opts1 npos app fifo inpipe input fuel) =
      stripMain (mainModel opts2 npos app fifo inpipe input fuel) := by
  have hcore : ∀ (v v' b c : Bool) (dests : List Bool) (input : List Nat) (fuel : Nat),
      (uteeRun v b c dests input fuel).map (fun p => (p.1, p.2.stripLog)) =
      (uteeRun v' b c dests input fuel).map (fun p => (p.1, p.2.stripLog)) := by
    intro v v' b c dests input fuel
    exact uteeLoop_log_independent b c dests fuel v v' _ _ rfl
  constructor
  · intro b c dests input fuel
    exact hcore true false b c dests input fuel
  · intro opts1 opts2 npos c app fifo inpipe input fuel h1 h2
    simp only [mainModel, h1, h2]
    by_cases ha : app
    · rw [if_pos ha, if_pos ha]; rfl
    · rw [if_neg ha, if_neg ha]
      have h := hcore true false (!inpipe) c (fifo :: List.replicate npos false) input fuel
      cases hr1 : uteeRun true (!inpipe) c (fifo :: List.replicate npos false) input fuel with
      | none =>
        cases hr2 : uteeRun false (!inpipe) c (fifo :: List.replicate npos false) input fuel with
        | none => rfl
        | some q => rw [hr1, hr2] at h; simp at h
      | some q =>
        cases hr2 : uteeRun false (!inpipe) c (fifo :: List.replicate npos false) input fuel with
        | none => rw [hr1, hr2] at h; simp at h
        | some q2 =>
          obtain ⟨w1, s1⟩ := q
          obtain ⟨w2, s2⟩ := q2
          rw [hr1, hr2] at h
          simp only [Option.map, Option.some.injEq, Prod.mk.injEq] at h
          obtain ⟨hw, hs⟩ := h
          have houts : s1.outs = s2.outs := (stripLog_inj_fields hs).2.2.2.1
          simp [stripMain, hw, houts]

/-- C10 witness: the parsing hypotheses of the verbosity theorem
discharged on the option strings -v and empty. -/
theorem verbosity_only_affects_diagnostics_witness :
    parseopts ['v'] 1 = some (true, false) ∧
    parseopts [] 1 = some (false, false) ∧
    stripMain (mainModel ['v'] 1 false false false [] 1) =
      stripMain (mainModel [] 1 false false false [] 1) :=
  ⟨by decide, by decide,
   verbosity_only_affects_diagnostics.2 ['v'] [] 1 false false false false [] 1
     (by decide) (by decide)⟩

/-- C8: if the primary output is open in append mode, main refuses to
start (utee.c:379-382): the exit code is EXIT_FAILURE, the engine is
never entered, no destination content is ever produced, and — whenever
option parsing got that far — the precondition diagnostic is printed.
The check precedes the opening of any destination file and the utee
call. -/
theorem append_mode_refused_before_engine :
    ∀ (opts : List Char) (npos : Nat) (fifo inpipe : Bool)
      (input : List Nat) (fuel : Nat),
      (mainModel opts npos true fifo inpipe input fuel).exitCode = 1 ∧
      (mainModel opts npos true fifo inpipe input fuel).engineRan = false ∧
      (mainModel opts npos true fifo inpipe input fuel).outs = none ∧
      (∀ (v c : Bool), parseopts opts npos = some (v, c) →
        precondMsg ∈ (mainModel opts npos true fifo inpipe input fuel).log) := by
  intro opts npos fifo inpipe input fuel
  cases hp : parseopts opts npos with
  | none =>
    refine ⟨by simp [mainModel, hp], by simp [mainModel, hp],
      by simp [mainModel, hp], ?_⟩
    intro v c h2
    simp at h2
  | some q =>
    obtain ⟨v, c⟩ := q
    refine ⟨by simp [mainModel, hp], by simp [mainModel, hp],
      by simp [mainModel, hp], ?_⟩
    intro v2 c2 h2
    have hlog : (mainModel opts npos true fifo inpipe input fuel).log =
        TRACE v "welcome" [] ++ [precondMsg] := by simp [mainModel, hp]
    rw [hlog]
    exact List.mem_append_right _ (List.mem_singleton.mpr rfl)

/-- C8 witness: the inner hypothesis of the append-mode theorem is
satisfied by the empty option string with one positional argument. -/
theorem append_mode_refused_before_engine_witness :
    precondMsg ∈ (mainModel [] 1 true false false [] 1).log :=
  (append_mode_refused_before_engine [] 1 false false [] 1).2.2.2 false false (by decide)

lemma WINDOW_pos : 0 < WINDOW := by decide

lemma winFold_trace (chunks : List Nat) : ∀ s : WinSt, s.trace = midTrace s.widx →
    (chunks.foldl winStep s).trace = midTrace (chunks.foldl winStep s).widx := by
  induction chunks with
  | nil => intro s h; exact h
  | cons a rest ih =>
    intro s h
    simp only [List.foldl_cons]
    apply ih
    unfold winStep
    by_cases hw : WINDOW ≤ s.wfilled
    · rw [if_pos hw]
      show s.trace ++ swapwindow s.widx WINDOW = midTrace (s.widx + 1)
      rw [h, midTrace]
    · rw [if_neg hw]
      exact h

lemma winRun_trace (chunks : List Nat) :
    (winRun chunks).trace = midTrace (winRun chunks).widx :=
  winFold_trace chunks winInit rfl

lemma swapwindow_countP_disc (j k : Nat) :
    (swapwindow j WINDOW).countP (discAt k) = if j = k + 1 then 1 else 0 := by
  by_cases hjk : j = k + 1
  · subst hjk
    rw [if_pos rfl]
    simp [swapwindow, discAt, List.countP_cons]
  · rw [if_neg hjk]
    by_cases hj : j = 0
    · subst hj
      simp [swapwindow, discAt, List.countP_cons]
    · have hne : WINDOW * (j - 1) ≠ WINDOW * k := by
        intro he
        have := Nat.eq_of_mul_eq_mul_left WINDOW_pos he
        omega
      simp [swapwindow, hj, discAt, List.countP_cons, hne]

lemma midTrace_countP_disc (k : Nat) : ∀ j : Nat,
    (midTrace j).countP (discAt k) = if k + 1 < j then 1 else 0 := by
  intro j
  induction j with
  | zero => simp [midTrace]
  | succ j ih =>
    rw [midTrace, List.countP_append, ih, swapwindow_countP_disc]
    split_ifs <;> omega

lemma midTrace_adjacent (k : Nat) : ∀ j : Nat, k + 1 < j →
    ∃ pre post, midTrace j = pre ++ WEv.wout (WINDOW * (k + 1)) WINDOW ::
      WEv.disc (WINDOW * k) WINDOW :: post := by
  intro j
  induction j with
  | zero => intro h; omega
  | succ j ih =>
    intro h
    by_cases hj : k + 1 < j
    · obtain ⟨pre, post, hsplit⟩ := ih hj
      refine ⟨pre, post ++ swapwindow j WINDOW, ?_⟩
      rw [midTrace, hsplit]
      simp
    · have hjeq : j = k + 1 := by omega
      subst hjeq
      refine ⟨midTrace (k + 1), [], ?_⟩
      rw [midTrace]
      unfold swapwindow
      simp

lemma midTrace_wout_lt : ∀ (j off len : Nat),
    WEv.wout off len ∈ midTrace j → off < WINDOW * j := by
  intro j
  induction j with
  | zero => intro off len h; cases h
  | succ j ih =>
    intro off len hmem
    rw [midTrace, List.mem_append] at hmem
    have hmul : WINDOW * (j + 1) = WINDOW * j + WINDOW := by ring
    rcases hmem with h | h
    · have := ih off len h
      omega
    · unfold swapwindow at h
      rcases List.mem_cons.mp h with h | h
      · cases h
        have := WINDOW_pos
        omega
      · by_cases hj : j = 0 <;> simp [hj] at h

lemma winFold_no_cross (chunks : List Nat) : ∀ s : WinSt,
    s.wfilled + chunks.sum < WINDOW →
    (chunks.foldl winStep s).widx = s.widx ∧
    (chunks.foldl winStep s).trace = s.trace ∧
    (chunks.foldl winStep s).wfilled = s.wfilled + chunks.sum := by
  induction chunks with
  | nil => intro s h; exact ⟨rfl, rfl, by simp⟩
  | cons a rest ih =>
    intro s h
    simp only [List.foldl_cons, List.sum_cons] at h ⊢
    have hw : ¬ WINDOW ≤ s.wfilled := by omega
    have hstep : winStep s a = { s with wfilled := s.wfilled + a } := by
      unfold winStep
      rw [if_neg hw]
    rw [hstep]
    obtain ⟨h1, h2, h3⟩ := ih { s with wfilled := s.wfilled + a } (by simp; omega)
    refine ⟨h1, h2, ?_⟩
    rw [h3]
    simp
    omega

lemma winStep_widx_le (s : WinSt) (a : Nat) : s.widx ≤ (winStep s a).widx := by
  unfold winStep
  by_cases hw : WINDOW ≤ s.wfilled
  · rw [if_pos hw]; exact Nat.le_succ _
  · rw [if_neg hw]

lemma winFold_widx_mono (suf : List Nat) : ∀ s : WinSt,
    s.widx ≤ (suf.foldl winStep s).widx := by
  induction suf with
  | nil => intro s; exact le_refl _
  | cons a rest ih =>
    intro s
    exact le_trans (winStep_widx_le s a) (ih (winStep s a))

/-- C6 amended: over every run, (i) each crossed window is evicted
exactly once and uncrossed windows never; (ii) every window k other
than the last crossed one is evicted mid-stream immediately after the
asynchronous writeback for window k + 1, in the same swapwindow call
(utee.c:127-132); (iii) the last crossed window is evicted by the
single final end-of-stream discard (utee.c:325-332), after which — and
this is the amendment — no asynchronous writeback for the following
window exists anywhere in the run, since every writeout covers a
window below widx; (iv) the window index never decreases as the
stream extends. -/
theorem window_eviction_discipline_amended :
    (∀ (chunks : List Nat) (k : Nat),
      (winTrace chunks).countP (discAt k) =
        if k < (winRun chunks).widx then 1 else 0) ∧
    (∀ (chunks : List Nat) (k : Nat), k + 1 < (winRun chunks).widx →
      ∃ pre post, winTrace chunks = pre ++ WEv.wout (WINDOW * (k + 1)) WINDOW ::
        WEv.disc (WINDOW * k) WINDOW :: post) ∧
    (∀ chunks : List Nat, (winRun chunks).widx ≠ 0 →
      winTrace chunks = midTrace (winRun chunks).widx ++
        [WEv.disc (WINDOW * ((winRun chunks).widx - 1))
          (WINDOW + (winRun chunks).wfilled)]) ∧
    (∀ (chunks : List Nat) (off len : Nat),
      WEv.wout off len ∈ winTrace chunks → off < WINDOW * (winRun chunks).widx) ∧
    (∀ pre suf : List Nat, (winRun pre).widx ≤ (winRun (pre ++ suf)).widx) := by
  have hchar : ∀ chunks : List Nat,
      winTrace chunks = midTrace (winRun chunks).widx ++
        (if (winRun chunks).widx ≠ 0 then
          [WEv.disc (WINDOW * ((winRun chunks).widx - 1))
            (WINDOW + (winRun chunks).wfilled)] else []) := by
    intro chunks
    unfold winTrace winFinal
    rw [winRun_trace]
  refine ⟨?_, ?_, ?_, ?_, ?_⟩
  · intro chunks k
    rw [hchar, List.countP_append, midTrace_countP_disc]
    by_cases hz : (winRun chunks).widx ≠ 0
    · rw [if_pos hz]
      simp only [List.countP_cons, List.countP_nil, discAt, beq_iff_eq]
      by_cases he : WINDOW * ((winRun chunks).widx - 1) = WINDOW * k
      · have hk : (winRun chunks).widx - 1 = k := Nat.eq_of_mul_eq_mul_left WINDOW_pos he
        rw [if_pos he]
        split_ifs <;> omega
      · have hk : ¬ (winRun chunks).widx - 1 = k := by
          intro hc; exact he (by rw [hc])
        rw [if_neg he]
        split_ifs <;> omega
    · rw [if_neg hz]
      simp only [List.countP_nil]
      split_ifs <;> omega
  · intro chunks k hk
    obtain ⟨pre, post, hsplit⟩ := midTrace_adjacent k (winRun chunks).widx hk
    refine ⟨pre, post ++
      (if (winRun chunks).widx ≠ 0 then
        [WEv.disc (WINDOW * ((winRun chunks).widx - 1))
          (WINDOW + (winRun chunks).wfilled)] else []), ?_⟩
    rw [hchar, hsplit]
    simp
  · intro chunks hz
    rw [hchar, if_pos hz]
  · intro chunks off len hmem
    rw [hchar, List.mem_append] at hmem
    rcases hmem with h | h
    · exact midTrace_wout_lt _ off len h
    · by_cases hz : (winRun chunks).widx ≠ 0 <;> simp [hz] at h
  · intro pre suf
    unfold winRun
    rw [List.foldl_append]
    exact winFold_widx_mono suf _

/-- C6 witness: the hypotheses of the amended window-discipline theorem
discharged on concrete runs — three chunks crossing two boundaries for
the mid-stream ordering clause, and the [WINDOW, 1] run for the
final-flush clause and the no-later-writeout bound. -/
theorem window_eviction_discipline_amended_witness :
    ((winRun ([WINDOW, WINDOW, 1] : List Nat)).widx = 2 ∧
      ∃ pre post, winTrace [WINDOW, WINDOW, 1] =
        pre ++ WEv.wout (WINDOW * (0 + 1)) WINDOW ::
          WEv.disc (WINDOW * 0) WINDOW :: post) ∧
    (winTrace [WINDOW, 1] = midTrace ((winRun [WINDOW, 1]).widx) ++
      [WEv.disc (WINDOW * ((winRun [WINDOW, 1]).widx - 1))
        (WINDOW + (winRun [WINDOW, 1]).wfilled)]) ∧
    (0 : Nat) < WINDOW * (winRun [WINDOW, 1]).widx :=
  ⟨⟨by decide,
    window_eviction_discipline_amended.2.1 [WINDOW, WINDOW, 1] 0 (by decide)⟩,
   window_eviction_discipline_amended.2.2.1 [WINDOW, 1] (by decide),
   window_eviction_discipline_amended.2.2.2.1 [WINDOW, 1] 0 WINDOW (by decide)⟩

/-- C7 amended: the writeback/eviction scheme is applied to the first
terminal destination unconditionally (spliceto[0] — destination index 0
only when destination 0 is itself terminal) and, under the
force-no-thrash flag, to all terminal destinations; at end-of-stream,
if a window boundary was crossed, exactly one final synchronous
writeback-and-evict is issued, covering WINDOW + wfilled bytes at
offset (widx - 1) * WINDOW; and a transfer that never fills one window
issues no writeback or eviction call at all. -/
theorem cache_window_policy_amended :
    (∀ dests : List Bool, wbTargets dests false = (splicetoIdx dests).take 1) ∧
    (∀ dests : List Bool, wbTargets dests true = splicetoIdx dests) ∧
    (∀ dests : List Bool, (wbTargets dests false).head? = firstTerminal dests) ∧
    (∀ chunks : List Nat, (winRun chunks).widx ≠ 0 →
      winTrace chunks = (winRun chunks).trace ++
        [WEv.disc (WINDOW * ((winRun chunks).widx - 1))
          (WINDOW + (winRun chunks).wfilled)] ∧
      (winTrace chunks).countP (discAt ((winRun chunks).widx - 1)) = 1) ∧
    (∀ chunks : List Nat, chunks.sum < WINDOW → winTrace chunks = []) := by
  have hhead : ∀ dests : List Bool, (splicetoIdx dests).head? = firstTerminal dests := by
    intro dests
    induction dests with
    | nil => rfl
    | cons d ds ih =>
      cases d
      · simp [splicetoIdx, firstTerminal]
      · simp [splicetoIdx, firstTerminal, List.head?_map, ih]
  refine ⟨?_, ?_, ?_, ?_, ?_⟩
  · intro dests
    cases h : splicetoIdx dests <;> simp [wbTargets, h]
  · intro dests
    cases h : splicetoIdx dests <;> simp [wbTargets, h]
  · intro dests
    rw [← hhead]
    cases h : splicetoIdx dests <;> simp [wbTargets, h]
  · intro chunks hz
    constructor
    · unfold winTrace winFinal
      rw [if_pos hz]
    · unfold winTrace winFinal
      rw [if_pos hz, List.countP_append, winRun_trace, midTrace_countP_disc]
      simp only [List.countP_cons, List.countP_nil, discAt, beq_iff_eq]
      simp only [if_true]
      split_ifs <;> omega
  · intro chunks hsum
    obtain ⟨h1, h2, h3⟩ := winFold_no_cross chunks winInit (by simpa [winInit] using hsum)
    simp only [winInit] at h1 h2
    unfold winTrace winFinal winRun
    rw [if_neg (by simp [winInit, h1])]
    simp [winInit, h2]

/-- C7 witness: the final-flush clause discharged on a run crossing one
boundary, and the small-transfer clause on a 5-byte transfer. -/
theorem cache_window_policy_amended_witness :
    (winTrace [WINDOW, 1] = (winRun [WINDOW, 1]).trace ++
      [WEv.disc (WINDOW * ((winRun [WINDOW, 1]).widx - 1))
        (WINDOW + (winRun [WINDOW, 1]).wfilled)] ∧
      (winTrace [WINDOW, 1]).countP (discAt ((winRun [WINDOW, 1]).widx - 1)) = 1) ∧
    winTrace [5] = [] :=
  ⟨cache_window_policy_amended.2.2.2.1 [WINDOW, 1] (by decide),
   cache_window_policy_amended.2.2.2.2 [5] (by decide)⟩

lemma splicetoIdx_head (dests : List Bool) :
    (splicetoIdx dests).head? = firstTerminal dests := by
  induction dests with
  | nil => rfl
  | cons d ds ih =>
    cases d
    · simp [splicetoIdx, firstTerminal]
    · simp [splicetoIdx, firstTerminal, List.head?_map, ih]

lemma spliceto_fifo_perm (dests : List Bool) :
    (splicetoIdx dests ++ fifoIdx dests).Perm (List.range dests.length) := by
  induction dests with
  | nil => simp [splicetoIdx, fifoIdx]
  | cons d ds ih =>
    have hmap : (List.range ds.length).map (· + 1) =
        (List.range ds.length).map Nat.succ := by
      simp [Nat.succ_eq_add_one]
    cases d
    · simp only [splicetoIdx, fifoIdx, List.length_cons, List.range_succ_eq_map,
        Bool.false_eq_true, if_false, List.cons_append]
      refine List.Perm.cons 0 ?_
      rw [← List.map_append, ← hmap]
      exact ih.map (· + 1)
    · simp only [splicetoIdx, fifoIdx, List.length_cons, List.range_succ_eq_map,
        if_true]
      refine List.Perm.trans List.perm_middle ?_
      refine List.Perm.cons 0 ?_
      rw [← List.map_append, ← hmap]
      exact ih.map (· + 1)

lemma splicetoIdx_all (dests : List Bool) :
    (splicetoIdx dests).all (fun i => !dests.getD i true) = true := by
  induction dests with
  | nil => rfl
  | cons d ds ih =>
    cases d
    · simp only [splicetoIdx, Bool.false_eq_true, if_false, List.all_cons,
        List.all_map, List.getD_cons_zero, List.getD_cons_succ, Function.comp]
      simpa using ih
    · simp only [splicetoIdx, if_true, List.all_map, List.getD_cons_succ,
        Function.comp]
      simpa using ih

lemma fifoIdx_all (dests : List Bool) :
    (fifoIdx dests).all (fun i => dests.getD i false) = true := by
  induction dests with
  | nil => rfl
  | cons d ds ih =>
    cases d
    · simp only [fifoIdx, Bool.false_eq_true, if_false, List.all_map,
        List.getD_cons_succ, Function.comp]
      simpa using ih
    · simp only [fifoIdx, if_true, List.all_cons, List.all_map,
        List.getD_cons_zero, List.getD_cons_succ, Function.comp]
      simpa using ih

lemma drainPairs_cons (dests : List Bool) (t : Nat) (ts : List Nat)
    (h : splicetoIdx dests = t :: ts) :
    nrelays dests = ts.length ∧
    drainPairs dests = (DrainSrc.origin, t) ::
      ((List.range ts.length).map DrainSrc.relay).zip ts := by
  have hn : nrelays dests = ts.length := by
    unfold nrelays nsplice
    rw [h]
    simp
  refine ⟨hn, ?_⟩
  unfold drainPairs drainSources
  rw [hn, h]
  rfl

/-- C4 amended: the Topology Builder assigns every destination exactly
once (first conjunct: terminal and pipe indices are a permutation of
all destination indices), the first drain target is the FIRST TERMINAL
destination — destination[0] only when destination 0 is itself terminal
(second conjunct, the amendment) — terminal/pipe classification is
faithful (third and fourth conjuncts), the origin conduit is always
drain-source index 0 (fifth conjunct), every terminal destination
beyond the first is fed by exactly one dedicated relay, relay j feeding
the j+1-st terminal destination (sixth conjunct), and for nout = 1 with
a terminal destination no relay is created and the origin feeds it
directly (last conjunct). -/
theorem topology_assignment_amended :
    (∀ dests : List Bool,
      (splicetoIdx dests ++ fifoIdx dests).Perm (List.range dests.length)) ∧
    (∀ dests : List Bool, (splicetoIdx dests).head? = firstTerminal dests) ∧
    (∀ dests : List Bool,
      (splicetoIdx dests).all (fun i => !dests.getD i true) = true) ∧
    (∀ dests : List Bool,
      (fifoIdx dests).all (fun i => dests.getD i false) = true) ∧
    (∀ dests : List Bool, (drainSources dests).head? = some DrainSrc.origin) ∧
    (∀ (dests : List Bool) (t : Nat) (ts : List Nat), splicetoIdx dests = t :: ts →
      nrelays dests = ts.length ∧
      drainPairs dests = (DrainSrc.origin, t) ::
        ((List.range ts.length).map DrainSrc.relay).zip ts) ∧
    (nrelays [false] = 0 ∧ drainPairs [false] = [(DrainSrc.origin, 0)]) :=
  ⟨spliceto_fifo_perm, splicetoIdx_head, splicetoIdx_all, fifoIdx_all,
   fun _ => rfl, drainPairs_cons, by decide, by decide⟩

/-- C4 witness: the dedicated-relay clause discharged on the
destination list [pipe, file, file]: one relay, pairing the origin with
terminal destination 1 and relay 0 with terminal destination 2. -/
theorem topology_assignment_amended_witness :
    splicetoIdx [true, false, false] = 1 :: [2] ∧
    (nrelays [true, false, false] = ([2] : List Nat).length ∧
      drainPairs [true, false, false] = (DrainSrc.origin, 1) ::
        ((List.range ([2] : List Nat).length).map DrainSrc.relay).zip [2]) :=
  ⟨by decide,
   topology_assignment_amended.2.2.2.2.2.1 [true, false, false] 1 [2] (by decide)⟩

end Utee
